import Mathlib

/-!
# Verification of the `checker` package of `gh-action-link-checker`

This file gives a shallow embedding, in Lean 4, of the link-discovery and
link-checking core found in `internal/checker/checker.go`, and proves (or
refutes) the specified properties of that code.

Modelling conventions:

* Go slices become `List`, Go `map[string]bool` sets become `List String`
  with `contains` membership, machine integers become `Nat` (no overflow is
  relevant anywhere in this code: depths and HTTP status codes are tiny).
* The network is an explicit oracle argument: an HTTP response that the Go
  code would obtain is passed in as data (`Option` for transport failure).
  Quantifying a theorem over the oracle quantifies over all possible servers.
* Go standard-library functions used by the checker (`strings` helpers,
  `net/url` parsing and reference resolution) are modelled by small
  executable Lean functions over `String.data` (lists of characters),
  written to follow the stdlib's documented algorithms (RFC 3986 reference
  resolution as implemented by `net/url.resolvePath`).  The URL model keeps
  scheme, host, path, query and fragment; user-info, ports and
  percent-escaping are outside the model.
-/

/-! ## Models of the Go `strings` helpers used by the checker

All are structurally recursive over character lists so that every
definition evaluates inside the kernel (`decide`/`rfl` on concrete data).
-/

/-- Split a character list at every occurrence of the character `c`
(Go `strings.Split` with a one-character separator). -/
def splitCharAux (c : Char) : List Char → List (List Char)
  | [] => [[]]
  | x :: xs =>
    match splitCharAux c xs with
    | [] => [[]]
    | y :: ys => if x == c then [] :: y :: ys else (x :: y) :: ys

/-- Model of Go `strings.Split(s, sep)` for a one-character separator. -/
def goSplit (c : Char) (s : String) : List String :=
  (splitCharAux c s.data).map String.mk

/-- Join a list of strings with a separator (inverse of `goSplit`). -/
def joinSep (sep : String) : List String → String
  | [] => ""
  | [x] => x
  | x :: xs => x ++ sep ++ joinSep sep xs

/-- Model of Go `strings.HasSuffix`. -/
def goHasSuffix (s suffix : String) : Bool :=
  suffix.data.isSuffixOf s.data

/-- Model of Go `strings.HasPrefix`. -/
def goHasPrefix (s pre : String) : Bool :=
  pre.data.isPrefixOf s.data

/-- Model of Go `strings.Contains(s, string(c))` for one character. -/
def goContainsChar (s : String) (c : Char) : Bool :=
  s.data.contains c

/-- Model of Go `strings.ToLower` (ASCII letters suffice here). -/
def goToLower (s : String) : String :=
  ⟨s.data.map Char.toLower⟩

/-- Model of Go `strings.TrimSpace`. -/
def goTrimSpace (s : String) : String :=
  ⟨((s.data.dropWhile Char.isWhitespace).reverse.dropWhile Char.isWhitespace).reverse⟩

/-- Model of Go `strings.TrimSuffix`. -/
def trimSuffix (s suffix : String) : String :=
  if goHasSuffix s suffix then ⟨s.data.take (s.data.length - suffix.data.length)⟩ else s

/-- Split a character list at the first occurrence of the pattern `sep`:
`some (before, after)` when `sep` occurs, `none` otherwise. -/
def splitFirstAux (sep : List Char) : List Char → Option (List Char × List Char)
  | [] => none
  | x :: xs =>
    if sep.isPrefixOf (x :: xs) then some ([], (x :: xs).drop sep.length)
    else
      match splitFirstAux sep xs with
      | none => none
      | some (a, b) => some (x :: a, b)

/-- Split `s` at the first occurrence of `sep`: the part before, and
(`some`) the part after when `sep` occurs. -/
def splitFirst (s sep : String) : String × Option String :=
  match splitFirstAux sep.data s.data with
  | none => (s, none)
  | some (a, b) => (⟨a⟩, some ⟨b⟩)

/-! ## Model of Go `net/url` URLs -/

/-- Model of Go's `url.URL` restricted to the components the checker uses:
scheme, host, path, raw query and fragment.  A relative reference is a
`GoURL` with empty `scheme` and `host`. -/
structure GoURL where
  scheme : String
  host : String
  path : String
  query : String
  fragment : String
deriving Repr, DecidableEq, Inhabited

/-- The part of `s` up to and including its last `/` (empty when `s` has
no slash), as computed by `base[:strings.LastIndex(base, "/")+1]` in Go. -/
def dirOf (s : String) : String :=
  let parts := (goSplit '/' s).dropLast
  if parts.isEmpty then "" else joinSep "/" parts ++ "/"

/-- Dot-segment elimination on a segment list, as performed by the loop of
Go's `url.resolvePath`: `.` is dropped (but a trailing `.` leaves a
trailing slash), `..` pops the previous segment (a trailing `..` likewise
leaves a trailing slash). -/
def remDotSegments (segs : List String) (acc : List String) : List String :=
  match segs with
  | [] => acc
  | ["."] => acc ++ [""]
  | [".."] => acc.dropLast ++ [""]
  | "." :: rest => remDotSegments rest acc
  | ".." :: rest => remDotSegments rest acc.dropLast
  | s :: rest => remDotSegments rest (acc ++ [s])

/-- Model of Go's `url.resolvePath(base, ref)`: merge `ref` onto the
directory of `base` (RFC 3986 §5.3 merge), then eliminate dot segments;
the result is always rooted at `/` (or empty when both inputs are empty). -/
def resolvePath (base ref : String) : String :=
  let full :=
    if ref = "" then base
    else if goHasPrefix ref "/" then ref
    else dirOf base ++ ref
  if full = "" then ""
  else
    let segs := goSplit '/' full
    let segs := if goHasPrefix full "/" then segs.drop 1 else segs
    "/" ++ joinSep "/" (remDotSegments segs [])

/-- Scheme syntax accepted by the parser model (letters, digits, `+`, `-`,
`.`; nonempty). -/
def validScheme (s : String) : Bool :=
  s ≠ "" && s.data.all (fun c => c.isAlpha || c.isDigit || c == '+' || c == '-' || c == '.')

/-- Split `host[/path][?query]` material into host, path and query. -/
def parseHostPathQuery (r : String) : String × String × String :=
  let (beforeQ, q) := splitFirst r "?"
  let query := q.getD ""
  let (host, p) := splitFirst beforeQ "/"
  match p with
  | none => (host, "", query)
  | some rest => (host, "/" ++ rest, query)

/-- Model of Go's `url.Parse` on the fragment of URL syntax the checker
exercises.  Parsing fails (returns `none`) when the string contains an
ASCII control character, which is the failure mode of `url.Parse` relevant
to this program; otherwise the string is decomposed into
scheme/host/path/query/fragment, with relative references receiving empty
scheme and host. -/
def parseURLRef (s : String) : Option GoURL :=
  if s.data.any (fun c => c.toNat < 32 || c.toNat == 127) then none
  else
    let (beforeFrag, frag) := splitFirst s "#"
    let fragment := frag.getD ""
    let (schemePart, rest) := splitFirst beforeFrag "://"
    match rest with
    | some r =>
      if validScheme schemePart then
        let (host, path, query) := parseHostPathQuery r
        some ⟨schemePart, host, path, query, fragment⟩
      else
        let (beforeQ, q) := splitFirst beforeFrag "?"
        some ⟨"", "", beforeQ, q.getD "", fragment⟩
    | none =>
      if goHasPrefix beforeFrag "//" then
        let (host, path, query) := parseHostPathQuery ⟨beforeFrag.data.drop 2⟩
        some ⟨"", host, path, query, fragment⟩
      else
        let (beforeQ, q) := splitFirst beforeFrag "?"
        some ⟨"", "", beforeQ, q.getD "", fragment⟩

/-- Model of `(*url.URL).ResolveReference` (RFC 3986 §5.3) on the modelled
components, following Go's implementation: an absolute reference wins
outright; a network-path reference adopts the base's scheme; an empty
path-and-query reference keeps the base's query (and fragment when the
reference has none); otherwise the reference path is resolved against the
base path with `resolvePath`. -/
def GoURL.resolveReference (u ref : GoURL) : GoURL :=
  if ref.scheme ≠ "" then
    { ref with path := resolvePath ref.path "" }
  else if ref.host ≠ "" then
    { ref with scheme := u.scheme, path := resolvePath ref.path "" }
  else
    let query := if ref.path = "" && ref.query = "" then u.query else ref.query
    let fragment :=
      if ref.path = "" && ref.query = "" && ref.fragment = "" then u.fragment
      else ref.fragment
    { scheme := u.scheme, host := u.host,
      path := resolvePath u.path ref.path, query := query, fragment := fragment }

/-- Model of `(*url.URL).String()` for the modelled components. -/
def GoURL.render (u : GoURL) : String :=
  (if u.scheme ≠ "" then u.scheme ++ ":" else "") ++
  (if u.host ≠ "" then "//" ++ u.host else "") ++
  u.path ++
  (if u.query ≠ "" then "?" ++ u.query else "") ++
  (if u.fragment ≠ "" then "#" ++ u.fragment else "")

/-! ## Model of parsed HTML documents (`golang.org/x/net/html` trees)

Only the structure the checker inspects is modelled: element nodes with a
tag name, an attribute list (key/value, in source order) and child nodes,
plus text nodes.  `html.Parse` itself is the oracle: theorems and
counterexamples quantify over (or exhibit) already-parsed trees.
-/

/-- A node of a parsed HTML document. -/
inductive HtmlNode where
  | elem (tag : String) (attrs : List (String × String)) (children : List HtmlNode)
  | text (s : String)
deriving Repr

/-- The value of the first attribute named `key`, modelling the Go pattern
`for _, attr := range n.Attr { if attr.Key == key { ...; break } }`. -/
def firstAttr (key : String) : List (String × String) → Option String
  | [] => none
  | (k, v) :: rest => if k = key then some v else firstAttr key rest

/-- Exclude patterns: Go compiles each configured pattern to a `*regexp.
Regexp`; the model keeps each compiled pattern as its matching predicate. -/
def shouldExclude (patterns : List (String → Bool)) (url : String) : Bool :=
  patterns.any (fun p => p url)

/-- Model of `resolveURL` (checker.go:247): empty hrefs, fragment-only
hrefs and `javascript:`/`mailto:` hrefs resolve to `""`; otherwise the
href is parsed and resolved against `baseURL`, and rendered. -/
def resolveURL (href : String) (baseURL : GoURL) : String :=
  if href = "" || goHasPrefix href "#" || goHasPrefix href "javascript:"
      || goHasPrefix href "mailto:" then ""
  else
    match parseURLRef href with
    | none => ""
    | some linkURL => (baseURL.resolveReference linkURL).render

/-! ### `findBase` (checker.go:186-206)

The traversal visits every node of the tree in document (pre)order; each
`<base>` element whose first `href` attribute parses OVERWRITES the
accumulator (the Go closure assigns to `resolveBaseURL` and keeps
traversing; the `break` only stops the attribute loop).  `none` means no
`<base>` element updated the accumulator, i.e. the Go pointer comparison
`resolveBaseURL == currentURL` at line 211 would be true. -/

mutual

/-- Traverse one node as the Go `findBase` closure does. -/
def findBaseNode (currentURL : GoURL) (acc : Option GoURL) : HtmlNode → Option GoURL
  | .text _ => acc
  | .elem tag attrs children =>
    let acc :=
      if tag = "base" then
        match firstAttr "href" attrs with
        | some v =>
          match parseURLRef v with
          | some baseHref => some (currentURL.resolveReference baseHref)
          | none => acc
        | none => acc
      else acc
    findBaseList currentURL acc children

/-- Traverse a child list left to right. -/
def findBaseList (currentURL : GoURL) (acc : Option GoURL) : List HtmlNode → Option GoURL
  | [] => acc
  | n :: ns => findBaseList currentURL (findBaseNode currentURL acc n) ns

end

/-! ### MIME classification and base-URL heuristic (checker.go:263-443) -/

/-- The recognized file-extension set of `getResolveBaseURL`
(checker.go:278-285). -/
def fileExtensions : List String :=
  ["html", "htm", "php", "asp", "aspx",
   "jsp", "js", "css", "xml", "json",
   "txt", "pdf", "doc", "docx", "jpg",
   "jpeg", "png", "gif", "svg", "ico",
   "zip", "tar", "gz", "mp3", "mp4",
   "woff", "woff2", "ttf", "otf", "eot"]

/-- `lastSegment[dotIndex+1:]` of checker.go:275: the substring after the
last `.` of a segment. -/
def extensionAfterLastDot (s : String) : String :=
  (goSplit '.' s).getLastD ""

/-- The directory-like MIME types of `isFileMimeType` (checker.go:365-370). -/
def directoryTypes : List String :=
  ["text/plain", "application/json", "application/xml", "text/xml"]

/-- The file-like MIME types of `isFileMimeType` (checker.go:381-440). -/
def fileTypes : List String :=
  ["application/pdf", "application/msword",
   "application/vnd.openxmlformats-officedocument.wordprocessingml.document",
   "application/vnd.ms-excel",
   "application/vnd.openxmlformats-officedocument.spreadsheetml.sheet",
   "application/vnd.ms-powerpoint",
   "application/vnd.openxmlformats-officedocument.presentationml.presentation",
   "application/rtf",
   "application/zip", "application/x-rar-compressed", "application/x-7z-compressed",
   "application/x-tar", "application/gzip", "application/x-gzip",
   "image/jpeg", "image/png", "image/gif", "image/webp", "image/svg+xml",
   "image/bmp", "image/tiff", "image/x-icon",
   "audio/mpeg", "audio/wav", "audio/ogg", "audio/mp4", "audio/aac", "audio/flac",
   "video/mp4", "video/mpeg", "video/quicktime", "video/x-msvideo", "video/webm",
   "application/javascript", "text/css", "text/csv",
   "font/woff", "font/woff2", "application/font-woff", "application/font-woff2",
   "font/ttf", "font/otf",
   "application/octet-stream"]

/-- Model of `isFileMimeType` (checker.go:362): directory-like types are
not files; otherwise membership in the file-type set decides. -/
def isFileMimeType (mimeType : String) : Bool :=
  if directoryTypes.contains mimeType then false
  else fileTypes.contains mimeType

/-- The HEAD response seen by `isFileByContentType`: `none` is a transport
error; otherwise a status code and the `Content-Type` header value (Go's
`Header.Get` yields `""` when the header is missing). -/
abbrev HeadResponse := Option (Nat × String)

/-- Model of `isFileByContentType` (checker.go:329): transport errors,
status ≥ 400 and a missing `Content-Type` header are errors; otherwise the
MIME type (text before `;`, lowercased, trimmed) is classified. -/
def isFileByContentType (resp : HeadResponse) : Except String Bool :=
  match resp with
  | none => .error "request failed"
  | some (status, contentType) =>
    if 400 ≤ status then .error "HTTP error"
    else if contentType = "" then .error "no Content-Type header"
    else
      let mimeType := (goSplit ';' contentType).headD ""
      let mimeType := goTrimSpace (goToLower mimeType)
      .ok (isFileMimeType mimeType)

/-- Model of `getResolveBaseURL` (checker.go:263): a path already ending
in `/` is returned unchanged; a last path segment with a recognized file
extension short-circuits to the parent directory; otherwise the live
Content-Type probe (`resp`) decides, with directory treatment (append `/`)
when the probe reports "not a file" or fails. -/
def getResolveBaseURL (resp : HeadResponse) (currentURL : GoURL) : GoURL :=
  if goHasSuffix currentURL.path "/" then currentURL
  else
    let pathSegments := goSplit '/' currentURL.path
    let lastSegment := pathSegments.getLastD ""
    if goContainsChar lastSegment '.' &&
        fileExtensions.contains (goToLower (extensionAfterLastDot lastSegment)) then
      let newPath := trimSuffix currentURL.path lastSegment
      let newPath := if goHasSuffix newPath "/" then newPath else newPath ++ "/"
      { currentURL with path := newPath }
    else
      match isFileByContentType resp with
      | .ok true =>
        let newPath := trimSuffix currentURL.path lastSegment
        let newPath := if goHasSuffix newPath "/" then newPath else newPath ++ "/"
        { currentURL with path := newPath }
      | .ok false => { currentURL with path := currentURL.path ++ "/" }
      | .error _ => { currentURL with path := currentURL.path ++ "/" }

/-! ### Anchor extraction (checker.go:218-242) -/

mutual

/-- Collect, in document order, the resolved same-host links of the
anchors of one node, as the Go `extract` closure does: the first `href`
attribute of each `<a>` is resolved against `resolveBaseURL`, empty
resolutions are dropped, and only links whose host equals `baseURL.Host`
are kept. -/
def extractNode (resolveBaseURL baseURL : GoURL) (acc : List String) : HtmlNode → List String
  | .text _ => acc
  | .elem tag attrs children =>
    let acc :=
      if tag = "a" then
        match firstAttr "href" attrs with
        | some link =>
          let absoluteURL := resolveURL link resolveBaseURL
          if absoluteURL ≠ "" then
            match parseURLRef absoluteURL with
            | some linkURL =>
              if linkURL.host = baseURL.host then acc ++ [absoluteURL] else acc
            | none => acc
          else acc
        | none => acc
      else acc
    extractList resolveBaseURL baseURL acc children

/-- Collect over a child list, left to right. -/
def extractList (resolveBaseURL baseURL : GoURL) (acc : List String) : List HtmlNode → List String
  | [] => acc
  | n :: ns => extractList resolveBaseURL baseURL (extractNode resolveBaseURL baseURL acc n) ns

end

/-- The pure core of `extractLinksFromPage` (checker.go:184-243), applied
to an already-fetched-and-parsed document `doc`: compute the effective
resolution base (the `findBase` scan, else the heuristic of
`getResolveBaseURL` fed by the probe response `resp`), then extract the
anchors. -/
def extractLinksFromDoc (resp : HeadResponse) (doc : HtmlNode)
    (currentURL baseURL : GoURL) : List String :=
  let resolveBaseURL :=
    match findBaseNode currentURL none doc with
    | some u => u
    | none => getResolveBaseURL resp currentURL
  extractNode resolveBaseURL baseURL [] doc

/-! ## Model of `GetURLsFromSitemap` (checker.go:34-94) -/

/-- One `<url>` entry of a parsed sitemap.  `loc` is `none` when the entry
has no `<loc>` child; Go's `encoding/xml` then leaves the struct field at
its zero value `""`. -/
structure SitemapURLEntry where
  loc : Option String
deriving Repr, DecidableEq

/-- The `Loc` field values of a parsed `Sitemap`, in document order
(`encoding/xml` zero value `""` for a missing `<loc>`). -/
def sitemapLocs (entries : List SitemapURLEntry) : List String :=
  entries.map (fun e => e.loc.getD "")

/-- The GET response seen by `GetURLsFromSitemap`: `none` is a transport
error; otherwise a status code and, when the body unmarshals as a
`urlset`, the parsed entries (`none` for an XML parse failure). -/
abbrev SitemapResponse := Option (Nat × Option (List SitemapURLEntry))

/-- Model of `GetURLsFromSitemap` (checker.go:59): transport errors,
non-200 statuses and XML parse failures are errors; otherwise every `Loc`
value not matching an exclude pattern is returned, verbatim and in order. -/
def GetURLsFromSitemap (patterns : List (String → Bool))
    (resp : SitemapResponse) : Except String (List String) :=
  match resp with
  | none => .error "fetching sitemap"
  | some (status, body) =>
    if status ≠ 200 then .error "sitemap returned status"
    else
      match body with
      | none => .error "parsing sitemap XML"
      | some entries =>
        .ok ((sitemapLocs entries).filter (fun u => !shouldExclude patterns u))

/-! ## Model of `checkSingleLink` (checker.go:541-580) -/

/-- Model of `LinkResult` (checker.go:20).  `Duration` is wall-clock time
and is outside the model. -/
structure LinkResult where
  url : String
  statusCode : Nat
  error : String
deriving Repr, DecidableEq

/-- Model of `checkSingleLink` (checker.go:541).  `reqOK` is whether
`http.NewRequest` succeeds; `headResp`/`getResp` are the status codes of
the HEAD attempt and of the GET retry (`none` for a transport error).  On
a HEAD transport error the same request is retried as GET; if that also
fails the result carries status code 0 (the Go zero value) and an error
string; otherwise the response's status is reported, with an error string
exactly when it is ≥ 400. -/
def checkSingleLink (reqOK : Bool) (headResp getResp : Option Nat)
    (checkURL : String) : LinkResult :=
  if !reqOK then
    { url := checkURL, statusCode := 0, error := "creating request: invalid" }
  else
    let respStatus :=
      match headResp with
      | some s => some s
      | none => getResp
    match respStatus with
    | none => { url := checkURL, statusCode := 0, error := "request failed: transport" }
    | some s =>
      { url := checkURL, statusCode := s,
        error := if 400 ≤ s then "HTTP " ++ toString s else "" }

/-! ## Model of `CrawlWebsite` (checker.go:97-159)

The per-page work of `extractLinksFromPage` (HTTP fetch, status check,
HTML parse, link extraction) is abstracted as the oracle
`extract : String → Option (List String)`: `none` is any extraction
failure (fetch error, non-success status, parse error) and `some links`
the extracted link list.  Quantifying over `extract` quantifies over every
possible (deterministic) site.

The Go recursion is bounded by the depth checks: every recursive call
increases `depth`, and link extraction happens only when
`depth < maxDepth`, so the recursion depth never exceeds `maxDepth + 1`.
The Lean model makes that measure explicit as a structural `fuel`
argument, always invoked with `fuel = maxDepth + 1 - depth`, which the
depth guards keep strictly positive at every call; the `fuel = 0` equation
is therefore never exercised.
-/

/-- The state owned by one crawl invocation: the visited set (Go
`map[string]bool`) and the result sequence, mutated together. -/
structure CrawlState where
  visited : List String
  urls : List String
deriving Repr, DecidableEq

/-- Model of the recursive `crawl` closure (checker.go:108-155).  One call
visits `currentURL` at `depth`: depth overflow and already-visited URLs
return immediately; otherwise the URL is marked visited and recorded, and
— unless at the depth bound, the URL fails to parse, or extraction fails —
each extracted link that is unvisited (at loop time) and not excluded is
visited recursively at `depth + 1`. -/
def crawlVisit (extract : String → Option (List String))
    (patterns : List (String → Bool)) (maxDepth : Nat) :
    Nat → String → Nat → CrawlState → CrawlState
  | 0, _, _, st => st
  | fuel + 1, currentURL, depth, st =>
    if maxDepth < depth then st
    else if st.visited.contains currentURL then st
    else if depth = maxDepth then
      ⟨st.visited ++ [currentURL], st.urls ++ [currentURL]⟩
    else if (parseURLRef currentURL).isNone then
      ⟨st.visited ++ [currentURL], st.urls ++ [currentURL]⟩
    else
      match extract currentURL with
      | none => ⟨st.visited ++ [currentURL], st.urls ++ [currentURL]⟩
      | some links =>
        links.foldl
          (fun acc link =>
            if !acc.visited.contains link && !shouldExclude patterns link then
              crawlVisit extract patterns maxDepth fuel link (depth + 1) acc
            else acc)
          ⟨st.visited ++ [currentURL], st.urls ++ [currentURL]⟩

/-- Model of `CrawlWebsite` (checker.go:97): parse the seed URL (the only
error exit), then run the recursive crawl from `(baseURL, 0)` on an empty
state and return the recorded URL sequence. -/
def CrawlWebsite (extract : String → Option (List String))
    (patterns : List (String → Bool)) (baseURL : String) (maxDepth : Nat) :
    Except String (List String) :=
  match parseURLRef baseURL with
  | none => .error "parsing base URL"
  | some _ => .ok (crawlVisit extract patterns maxDepth (maxDepth + 1) baseURL 0 ⟨[], []⟩).urls
/-! ## Crawl invariants -/

/-- The crawl only ever appends to the state: visited set and result
sequence grow by one common suffix. -/
def CrawlExtends (st r : CrawlState) : Prop :=
  ∃ ext, r.visited = st.visited ++ ext ∧ r.urls = st.urls ++ ext

/-- The crawl state invariant: the result sequence has no duplicates and
the visited set records exactly the result sequence (in order). -/
def CrawlInv (st : CrawlState) : Prop :=
  st.urls.Nodup ∧ st.visited = st.urls

theorem crawlExtends_refl (st : CrawlState) : CrawlExtends st st :=
  ⟨[], by simp, by simp⟩

theorem crawlExtends_trans {a b c : CrawlState}
    (h1 : CrawlExtends a b) (h2 : CrawlExtends b c) : CrawlExtends a c := by
  obtain ⟨e1, hv1, hu1⟩ := h1
  obtain ⟨e2, hv2, hu2⟩ := h2
  exact ⟨e1 ++ e2, by rw [hv2, hv1, List.append_assoc],
    by rw [hu2, hu1, List.append_assoc]⟩

/-- Properties of the recording step `⟨visited ++ [u], urls ++ [u]⟩` of an
unvisited `u` (checker.go:118-119). -/
theorem crawlRecord_props (Q : String → Prop) (u : String) (st : CrawlState)
    (hnotmem : u ∉ st.visited) :
    CrawlExtends st ⟨st.visited ++ [u], st.urls ++ [u]⟩ ∧
    (CrawlInv st → CrawlInv ⟨st.visited ++ [u], st.urls ++ [u]⟩) ∧
    ((∀ x ∈ st.urls, Q x) → Q u →
      ∀ x ∈ (CrawlState.urls ⟨st.visited ++ [u], st.urls ++ [u]⟩), Q x) := by
  refine ⟨⟨[u], rfl, rfl⟩, fun hinv => ?_, fun hall hu x hx => ?_⟩
  · obtain ⟨hnd, hvu⟩ := hinv
    have hnm' : u ∉ st.urls := hvu ▸ hnotmem
    constructor
    · exact List.Nodup.append hnd (List.nodup_singleton u)
        ((List.disjoint_singleton).mpr hnm')
    · show st.visited ++ [u] = st.urls ++ [u]
      rw [hvu]
  · rcases List.mem_append.mp hx with hx | hx
    · exact hall x hx
    · rw [List.mem_singleton.mp hx]; exact hu

/-- Properties of the child loop of `crawl` (checker.go:150-154), given
the corresponding properties of `crawlVisit` one fuel level down. -/
theorem crawlFold_props (e : String → Option (List String))
    (p : List (String → Bool)) (m : Nat) (Q : String → Prop)
    (hQ : ∀ x, shouldExclude p x = false → Q x) (fuel d : Nat)
    (ih : ∀ u d' st, CrawlExtends st (crawlVisit e p m fuel u d' st) ∧
        (CrawlInv st → CrawlInv (crawlVisit e p m fuel u d' st)) ∧
        ((∀ x ∈ st.urls, Q x) → Q u →
          ∀ x ∈ (crawlVisit e p m fuel u d' st).urls, Q x)) :
    ∀ (links : List String) (st : CrawlState),
      CrawlExtends st (links.foldl
        (fun acc link =>
          if !acc.visited.contains link && !shouldExclude p link then
            crawlVisit e p m fuel link d acc
          else acc) st) ∧
      (CrawlInv st → CrawlInv (links.foldl
        (fun acc link =>
          if !acc.visited.contains link && !shouldExclude p link then
            crawlVisit e p m fuel link d acc
          else acc) st)) ∧
      ((∀ x ∈ st.urls, Q x) → ∀ x ∈ (links.foldl
        (fun acc link =>
          if !acc.visited.contains link && !shouldExclude p link then
            crawlVisit e p m fuel link d acc
          else acc) st).urls, Q x) := by
  intro links
  induction links with
  | nil =>
    intro st
    exact ⟨crawlExtends_refl st, fun h => h, fun h => h⟩
  | cons l ls ihl =>
    intro st
    rw [List.foldl_cons]
    by_cases hc : (!st.visited.contains l && !shouldExclude p l) = true
    · rw [if_pos hc]
      have hQl : Q l := by
        have h2 : (!shouldExclude p l) = true := (Bool.and_eq_true _ _ |>.mp hc).2
        exact hQ l (by simpa using h2)
      obtain ⟨hext, hinv, hq⟩ := ih l d st
      obtain ⟨hext2, hinv2, hq2⟩ := ihl (crawlVisit e p m fuel l d st)
      exact ⟨crawlExtends_trans hext hext2, fun h => hinv2 (hinv h),
        fun h => hq2 (hq h hQl)⟩
    · rw [if_neg hc]
      exact ihl st

/-- The central properties of one `crawl` call (checker.go:108-155): the
state only grows (by one common suffix of both fields), the no-duplicates
invariant is preserved, and every newly recorded URL is either the URL
passed in at the top of the call or one that passed the exclude-pattern
check on its way into the recursion. -/
theorem crawlVisit_props (e : String → Option (List String))
    (p : List (String → Bool)) (m : Nat) (Q : String → Prop)
    (hQ : ∀ x, shouldExclude p x = false → Q x) :
    ∀ fuel u d st,
      CrawlExtends st (crawlVisit e p m fuel u d st) ∧
      (CrawlInv st → CrawlInv (crawlVisit e p m fuel u d st)) ∧
      ((∀ x ∈ st.urls, Q x) → Q u →
        ∀ x ∈ (crawlVisit e p m fuel u d st).urls, Q x) := by
  intro fuel
  induction fuel with
  | zero =>
    intro u d st
    exact ⟨crawlExtends_refl st, fun h => h, fun h _ => h⟩
  | succ fuel ih =>
    intro u d st
    by_cases h1 : m < d
    · have hr : crawlVisit e p m (fuel + 1) u d st = st := by
        simp only [crawlVisit]
        rw [if_pos h1]
      rw [hr]
      exact ⟨crawlExtends_refl st, fun h => h, fun h _ => h⟩
    · by_cases h2 : st.visited.contains u = true
      · have hr : crawlVisit e p m (fuel + 1) u d st = st := by
          simp only [crawlVisit]
          rw [if_neg h1, if_pos h2]
        rw [hr]
        exact ⟨crawlExtends_refl st, fun h => h, fun h _ => h⟩
      · have hnotmem : u ∉ st.visited := by simpa using h2
        by_cases h3 : d = m
        · have hr : crawlVisit e p m (fuel + 1) u d st =
              ⟨st.visited ++ [u], st.urls ++ [u]⟩ := by
            simp only [crawlVisit]
            rw [if_neg h1, if_neg h2, if_pos h3]
          rw [hr]
          exact crawlRecord_props Q u st hnotmem
        · cases h4 : (parseURLRef u).isNone with
          | true =>
            have hr : crawlVisit e p m (fuel + 1) u d st =
                ⟨st.visited ++ [u], st.urls ++ [u]⟩ := by
              simp only [crawlVisit]
              rw [if_neg h1, if_neg h2, if_neg h3, if_pos h4]
            rw [hr]
            exact crawlRecord_props Q u st hnotmem
          | false =>
            have h4' : ¬ (parseURLRef u).isNone = true := by
              rw [h4]; exact Bool.false_ne_true
            cases hE : e u with
            | none =>
              have hr : crawlVisit e p m (fuel + 1) u d st =
                  ⟨st.visited ++ [u], st.urls ++ [u]⟩ := by
                simp only [crawlVisit]
                rw [if_neg h1, if_neg h2, if_neg h3, if_neg h4', hE]
              rw [hr]
              exact crawlRecord_props Q u st hnotmem
            | some links =>
              have hr : crawlVisit e p m (fuel + 1) u d st =
                  links.foldl
                    (fun acc link =>
                      if !acc.visited.contains link && !shouldExclude p link then
                        crawlVisit e p m fuel link (d + 1) acc
                      else acc)
                    ⟨st.visited ++ [u], st.urls ++ [u]⟩ := by
                simp only [crawlVisit]
                rw [if_neg h1, if_neg h2, if_neg h3, if_neg h4', hE]
              rw [hr]
              obtain ⟨bext, binv, bq⟩ := crawlRecord_props Q u st hnotmem
              obtain ⟨fext, finv, fq⟩ :=
                crawlFold_props e p m Q hQ fuel (d + 1) (fun u d' st => ih u d' st)
                  links ⟨st.visited ++ [u], st.urls ++ [u]⟩
              exact ⟨crawlExtends_trans bext fext, fun h => finv (binv h),
                fun hall hu => fq (bq hall hu)⟩

/-! ## Claim theorems: the crawler -/

/-- Claim C4: for every site (including cyclic ones, as the `extract`
oracle is arbitrary) and every depth bound, a successful `CrawlWebsite`
run yields a result sequence with no duplicates — a URL is marked visited
at the moment it is recorded, before its children are explored.
Termination itself is structural in the model: the Go recursion is bounded
by the depth guards, mirrored by the `fuel = maxDepth + 1 - depth`
measure. -/
theorem crawlWebsite_nodup (e : String → Option (List String))
    (p : List (String → Bool)) (seed : String) (m : Nat) (us : List String)
    (h : CrawlWebsite e p seed m = .ok us) : us.Nodup := by
  unfold CrawlWebsite at h
  cases hp : parseURLRef seed with
  | none => rw [hp] at h; exact absurd h (by simp)
  | some v =>
    rw [hp] at h
    have hus : us = (crawlVisit e p m (m + 1) seed 0 ⟨[], []⟩).urls :=
      (Except.ok.inj h).symm
    obtain ⟨_, hinv, _⟩ := crawlVisit_props e p m (fun _ => True)
      (fun _ _ => trivial) (m + 1) seed 0 ⟨[], []⟩
    have := hinv ⟨List.nodup_nil, rfl⟩
    rw [hus]
    exact this.1

/-- Claim C2 (amended): depth monotonicity holds only at the base — the
seed (the whole of `CrawlWebsite(seed, 0)`) is the first element of every
successful crawl result, for every depth bound; for larger bounds,
increasing the depth can also REMOVE URLs (see the counterexample). -/
theorem crawlWebsite_seed_first (e : String → Option (List String))
    (p : List (String → Bool)) (seed : String) (m : Nat) (us : List String)
    (h : CrawlWebsite e p seed m = .ok us) : us.head? = some seed := by
  unfold CrawlWebsite at h
  cases hp : parseURLRef seed with
  | none => rw [hp] at h; exact absurd h (by simp)
  | some v =>
    rw [hp] at h
    have hus : us = (crawlVisit e p m (m + 1) seed 0 ⟨[], []⟩).urls :=
      (Except.ok.inj h).symm
    rw [hus]
    have h1 : ¬ m < 0 := Nat.not_lt_zero m
    have h2 : ¬ (CrawlState.visited ⟨[], []⟩).contains seed = true := by simp
    by_cases h3 : (0 : Nat) = m
    · have hr : crawlVisit e p m (m + 1) seed 0 ⟨[], []⟩ =
          ⟨[] ++ [seed], [] ++ [seed]⟩ := by
        simp only [crawlVisit]
        rw [if_neg h1, if_neg h2, if_pos h3]
      rw [hr]
      rfl
    · have h4' : ¬ (parseURLRef seed).isNone = true := by rw [hp]; simp
      cases hE : e seed with
      | none =>
        have hr : crawlVisit e p m (m + 1) seed 0 ⟨[], []⟩ =
            ⟨[] ++ [seed], [] ++ [seed]⟩ := by
          simp only [crawlVisit]
          rw [if_neg h1, if_neg h2, if_neg h3, if_neg h4', hE]
        rw [hr]
        rfl
      | some links =>
        have hr : crawlVisit e p m (m + 1) seed 0 ⟨[], []⟩ =
            links.foldl
              (fun acc link =>
                if !acc.visited.contains link && !shouldExclude p link then
                  crawlVisit e p m m link (0 + 1) acc
                else acc)
              ⟨[] ++ [seed], [] ++ [seed]⟩ := by
          simp only [crawlVisit]
          rw [if_neg h1, if_neg h2, if_neg h3, if_neg h4', hE]
        rw [hr]
        obtain ⟨fext, _, _⟩ := crawlFold_props e p m (fun _ => True)
          (fun _ _ => trivial) m (0 + 1)
          (fun u d' st => crawlVisit_props e p m (fun _ => True)
            (fun _ _ => trivial) m u d' st)
          links ⟨[] ++ [seed], [] ++ [seed]⟩
        obtain ⟨ext, _, hu⟩ := fext
        rw [hu]
        rfl

/-- Claim C6: `CrawlWebsite` returns an error exactly when the seed URL
fails to parse; for every behaviour of the per-page extraction oracle —
including one that fails on every page — the crawl still returns `ok`, so
per-page fetch/status/parse failures only prune branches and are never
surfaced to the caller. -/
theorem crawlWebsite_error_iff (e : String → Option (List String))
    (p : List (String → Bool)) (seed : String) (m : Nat) :
    (∃ us, CrawlWebsite e p seed m = .ok us) ↔ (parseURLRef seed).isSome = true := by
  cases hp : parseURLRef seed with
  | none => simp [CrawlWebsite, hp]
  | some v => simp [CrawlWebsite, hp]

/-- Claim C5: for every parseable seed, `CrawlWebsite(seed, 0)` is exactly
`[seed]` — the seed is recorded before the depth check stops the
traversal, for every extraction oracle, including one that fails on the
seed itself. -/
theorem crawlWebsite_depth_zero (e : String → Option (List String))
    (p : List (String → Bool)) (seed : String)
    (h : (parseURLRef seed).isSome = true) :
    CrawlWebsite e p seed 0 = .ok [seed] := by
  obtain ⟨v, hv⟩ := Option.isSome_iff_exists.mp h
  unfold CrawlWebsite
  rw [hv]
  have hr : crawlVisit e p 0 (0 + 1) seed 0 ⟨[], []⟩ =
      ⟨[] ++ [seed], [] ++ [seed]⟩ := rfl
  rw [hr]
  rfl

/-- Claim C3 (amended): a URL matching a configured exclude pattern never
appears among sitemap results, and never appears in crawl results UNLESS
it is the seed URL itself — the seed bypasses the exclude check (see the
counterexample), while every other recorded URL passed it. -/
theorem crawl_and_sitemap_respect_excludes (p : List (String → Bool)) :
    (∀ resp us, GetURLsFromSitemap p resp = .ok us →
      ∀ u ∈ us, shouldExclude p u = false) ∧
    (∀ e seed m us, CrawlWebsite e p seed m = .ok us →
      ∀ u ∈ us, u = seed ∨ shouldExclude p u = false) := by
  constructor
  · intro resp us h u hu
    rcases resp with _ | ⟨status, body⟩
    · exact absurd h (by simp [GetURLsFromSitemap])
    · by_cases hs : status = 200
      · subst hs
        rcases body with _ | entries
        · exact absurd h (by simp [GetURLsFromSitemap])
        · have hus : us = (sitemapLocs entries).filter
              (fun x => !shouldExclude p x) := by
            simpa [GetURLsFromSitemap] using h.symm
          rw [hus] at hu
          have := (List.mem_filter.mp hu).2
          simpa using this
      · exact absurd h (by simp [GetURLsFromSitemap, hs])
  · intro e seed m us h u hu
    unfold CrawlWebsite at h
    cases hp : parseURLRef seed with
    | none => rw [hp] at h; exact absurd h (by simp)
    | some v =>
      rw [hp] at h
      have hus : us = (crawlVisit e p m (m + 1) seed 0 ⟨[], []⟩).urls :=
        (Except.ok.inj h).symm
      obtain ⟨_, _, hq⟩ := crawlVisit_props e p m
        (fun x => x = seed ∨ shouldExclude p x = false)
        (fun x hx => Or.inr hx) (m + 1) seed 0 ⟨[], []⟩
      exact hq (by simp) (Or.inl rfl) u (hus ▸ hu)

/-! ## Claim theorems: base-tag handling in `extractLinksFromPage` -/

mutual

/-- Specification-side view of the `findBase` scan: the hrefs of all
`<base>` elements of a node, in document (pre)order, parsed; elements
whose first `href` attribute fails to parse (or that have none) are
skipped. -/
def baseRefsNode : HtmlNode → List GoURL
  | .text _ => []
  | .elem tag attrs children =>
    (if tag = "base" then
      match firstAttr "href" attrs with
      | some v =>
        match parseURLRef v with
        | some r => [r]
        | none => []
      | none => []
     else []) ++ baseRefsList children

/-- `baseRefsNode` over a child list, left to right. -/
def baseRefsList : List HtmlNode → List GoURL
  | [] => []
  | n :: ns => baseRefsNode n ++ baseRefsList ns

end

mutual

/-- The `findBase` accumulator ends up holding the LAST parseable base
href of the document (in pre-order), resolved against `currentURL` —
each later `<base>` element overwrites the effect of earlier ones. -/
theorem findBaseNode_eq (cur : GoURL) (n : HtmlNode) (acc : Option GoURL) :
    findBaseNode cur acc n =
      ((baseRefsNode n).getLast?.map cur.resolveReference).or acc := by
  cases n with
  | text s => rfl
  | elem tag attrs children =>
    rw [show findBaseNode cur acc (.elem tag attrs children) =
        findBaseList cur
          (if tag = "base" then
            match firstAttr "href" attrs with
            | some v =>
              match parseURLRef v with
              | some r => some (cur.resolveReference r)
              | none => acc
            | none => acc
           else acc) children from rfl]
    rw [findBaseList_eq cur children]
    rw [show baseRefsNode (.elem tag attrs children) =
        (if tag = "base" then
          match firstAttr "href" attrs with
          | some v =>
            match parseURLRef v with
            | some r => [r]
            | none => []
          | none => []
         else []) ++ baseRefsList children from rfl]
    rw [List.getLast?_append]
    cases hL : (baseRefsList children).getLast? with
    | some r => rfl
    | none =>
      by_cases ht : tag = "base"
      · rw [if_pos ht, if_pos ht]
        cases hA : firstAttr "href" attrs with
        | none => rfl
        | some v =>
          cases hP : parseURLRef v with
          | none => simp only [hP]; rfl
          | some r => simp only [hP]; rfl
      · rw [if_neg ht, if_neg ht]
        rfl

/-- List version of `findBaseNode_eq`. -/
theorem findBaseList_eq (cur : GoURL) (ns : List HtmlNode) (acc : Option GoURL) :
    findBaseList cur acc ns =
      ((baseRefsList ns).getLast?.map cur.resolveReference).or acc := by
  cases ns with
  | nil => rfl
  | cons n rest =>
    rw [show findBaseList cur acc (n :: rest) =
        findBaseList cur (findBaseNode cur acc n) rest from rfl]
    rw [findBaseList_eq cur rest, findBaseNode_eq cur n acc]
    rw [show baseRefsList (n :: rest) = baseRefsNode n ++ baseRefsList rest from rfl]
    rw [List.getLast?_append]
    cases hR : (baseRefsList rest).getLast? with
    | some r => rfl
    | none =>
      cases hN : (baseRefsNode n).getLast? with
      | some r => rfl
      | none => rfl

end

/-- Claim C1 (amended): when the document contains at least one `<base>`
element with a parseable href, the effective resolution base used by
`extractLinksFromPage` is the LAST such element in pre-order (not the
first: each later one overwrites the earlier), resolved against
`currentURL`; every anchor is extracted against that base, and the
probe-driven heuristic is never consulted (the result does not depend on
the probe response). -/
theorem extractLinksFromDoc_base_tag (resp resp' : HeadResponse)
    (doc : HtmlNode) (cur siteBase : GoURL) (r : GoURL)
    (h : (baseRefsNode doc).getLast? = some r) :
    extractLinksFromDoc resp doc cur siteBase =
      extractNode (cur.resolveReference r) siteBase [] doc ∧
    extractLinksFromDoc resp doc cur siteBase =
      extractLinksFromDoc resp' doc cur siteBase := by
  have hfb : findBaseNode cur none doc = some (cur.resolveReference r) := by
    rw [findBaseNode_eq, h]
    rfl
  constructor
  · simp [extractLinksFromDoc, hfb]
  · simp [extractLinksFromDoc, hfb]

/-- A document whose `<head>` holds two `<base>` elements, `/x/` first and
`/y/` second, and one anchor `c`. -/
def twoBaseDoc : HtmlNode :=
  .elem "html" []
    [.elem "head" []
      [.elem "base" [("href", "/x/")] [], .elem "base" [("href", "/y/")] []],
     .elem "body" [] [.elem "a" [("href", "c")] [.text "link"]]]

/-- Claim C1 counterexample: on `twoBaseDoc` fetched at `http://h/a/b`,
the code resolves the anchor against the SECOND (`/y/`) base element, not
the first, refuting "uses the first such base element": the first base is
`/x/`, and resolving the anchor against it would have given
`http://h/x/c`, not the `http://h/y/c` the code produces. -/
theorem extractLinksFromDoc_first_base_cex :
    extractLinksFromDoc none twoBaseDoc ⟨"http", "h", "/a/b", "", ""⟩
        ⟨"http", "h", "/a/b", "", ""⟩ = ["http://h/y/c"] ∧
    (baseRefsNode twoBaseDoc).head? = some ⟨"", "", "/x/", "", ""⟩ ∧
    resolveURL "c"
        (GoURL.resolveReference ⟨"http", "h", "/a/b", "", ""⟩ ⟨"", "", "/x/", "", ""⟩)
      = "http://h/x/c" ∧
    ("http://h/y/c" : String) ≠ "http://h/x/c" :=
  ⟨rfl, rfl, rfl, by decide⟩

/-! ## Claim theorems: the base-URL resolution heuristic -/

/-- Claim C7: a recognized file extension (text after the final dot of
the last path segment, lowercased) short-circuits: the resolver strips the
last segment (parent directory, trailing `/` ensured) and the result is
the same for EVERY probe response — no Content-Type probing can influence
it. -/
theorem getResolveBaseURL_extension_shortcircuit (u : GoURL)
    (h1 : goHasSuffix u.path "/" = false)
    (h2 : goContainsChar ((goSplit '/' u.path).getLastD "") '.' = true)
    (h3 : fileExtensions.contains
      (goToLower (extensionAfterLastDot ((goSplit '/' u.path).getLastD ""))) = true)
    (resp resp' : HeadResponse) :
    getResolveBaseURL resp u =
      { u with path :=
          if goHasSuffix (trimSuffix u.path ((goSplit '/' u.path).getLastD "")) "/" then
            trimSuffix u.path ((goSplit '/' u.path).getLastD "")
          else trimSuffix u.path ((goSplit '/' u.path).getLastD "") ++ "/" } ∧
    getResolveBaseURL resp u = getResolveBaseURL resp' u := by
  have key : ∀ r : HeadResponse, getResolveBaseURL r u =
      { u with path :=
          if goHasSuffix (trimSuffix u.path ((goSplit '/' u.path).getLastD "")) "/" then
            trimSuffix u.path ((goSplit '/' u.path).getLastD "")
          else trimSuffix u.path ((goSplit '/' u.path).getLastD "") ++ "/" } := by
    intro r
    unfold getResolveBaseURL
    rw [if_neg (by rw [h1]; exact Bool.false_ne_true)]
    rw [if_pos (by rw [h2, h3]; rfl)]
  exact ⟨key resp, (key resp).trans (key resp').symm⟩

/-- Claim C8: when the last segment has no recognized extension and the
probe fails — transport error, status ≥ 400, or missing Content-Type
header — the resolver falls back to directory treatment, appending `/` to
the existing path; the probe's error is absorbed, never propagated (the
function is total and error-free by type). -/
theorem getResolveBaseURL_probe_failure (u : GoURL) (resp : HeadResponse)
    (h1 : goHasSuffix u.path "/" = false)
    (h2 : (goContainsChar ((goSplit '/' u.path).getLastD "") '.' &&
      fileExtensions.contains
        (goToLower (extensionAfterLastDot ((goSplit '/' u.path).getLastD "")))) = false)
    (h3 : resp = none ∨ ∃ s ct, resp = some (s, ct) ∧ (400 ≤ s ∨ ct = "")) :
    getResolveBaseURL resp u = { u with path := u.path ++ "/" } := by
  obtain ⟨msg, herr⟩ : ∃ msg, isFileByContentType resp = .error msg := by
    rcases h3 with h | ⟨s, ct, hr, hcase⟩
    · exact ⟨"request failed", by rw [h]; rfl⟩
    · subst hr
      rcases hcase with hs | hct
      · exact ⟨"HTTP error", by simp [isFileByContentType, hs]⟩
      · subst hct
        by_cases hs : 400 ≤ s
        · exact ⟨"HTTP error", by simp [isFileByContentType, hs]⟩
        · exact ⟨"no Content-Type header", by simp [isFileByContentType, hs]⟩
  unfold getResolveBaseURL
  rw [if_neg (by rw [h1]; exact Bool.false_ne_true)]
  rw [if_neg (by rw [h2]; exact Bool.false_ne_true)]
  rw [herr]

/-! ## Claim theorem: sitemap extraction -/

/-- Claim C9: `GetURLsFromSitemap` on a fetched-and-parsed sitemap
returns the `Loc` texts verbatim and in document order, with no
deduplication and no URL validation: the output is exactly the
exclude-filtered `Loc` sequence — an order-preserving subsequence in which
every non-excluded value keeps its full multiplicity (duplicates
retained), and an entry with no `<loc>` child contributes the empty
string whenever `""` is not excluded. -/
theorem getURLsFromSitemap_verbatim (patterns : List (String → Bool))
    (entries : List SitemapURLEntry) :
    GetURLsFromSitemap patterns (some (200, some entries)) =
      .ok ((sitemapLocs entries).filter (fun x => !shouldExclude patterns x)) ∧
    ((sitemapLocs entries).filter (fun x => !shouldExclude patterns x)).Sublist
      (sitemapLocs entries) ∧
    (∀ x, ((sitemapLocs entries).filter (fun x => !shouldExclude patterns x)).count x =
      if shouldExclude patterns x then 0 else (sitemapLocs entries).count x) ∧
    (∀ en ∈ entries, en.loc = none → shouldExclude patterns "" = false →
      "" ∈ (sitemapLocs entries).filter (fun x => !shouldExclude patterns x)) := by
  refine ⟨rfl, List.filter_sublist _, fun x => ?_, fun en hen hloc hexc => ?_⟩
  · by_cases hx : shouldExclude patterns x = true
    · rw [if_pos hx, List.count_eq_zero]
      intro hmem
      have := (List.mem_filter.mp hmem).2
      rw [hx] at this
      exact absurd this (by decide)
    · have hx' : shouldExclude patterns x = false := by
        revert hx; cases shouldExclude patterns x <;> simp
      rw [if_neg (by rw [hx']; exact Bool.false_ne_true)]
      exact List.count_filter (by rw [hx']; rfl)
  · rw [List.mem_filter]
    constructor
    · have : "" = en.loc.getD "" := by rw [hloc]; rfl
      rw [this]
      exact List.mem_map_of_mem _ hen
    · rw [hexc]; rfl

/-! ## Claim theorem: single-link checking -/

/-- Claim C10: `checkSingleLink` retries a transport-failed HEAD as GET
and reports the GET status; a result with status code 0 and a nonempty
error string happens exactly when request construction fails or both
attempts fail (assuming, as Go's HTTP client guarantees, that any parsed
response status is at least 100). -/
theorem checkSingleLink_retry_and_zero (reqOK : Bool)
    (headResp getResp : Option Nat) (u : String)
    (hHead : ∀ s, headResp = some s → 100 ≤ s)
    (hGet : ∀ s, getResp = some s → 100 ≤ s) :
    (∀ s, reqOK = true → headResp = none → getResp = some s →
      (checkSingleLink reqOK headResp getResp u).statusCode = s) ∧
    (((checkSingleLink reqOK headResp getResp u).statusCode = 0 ∧
      (checkSingleLink reqOK headResp getResp u).error ≠ "") ↔
      (reqOK = false ∨ (headResp = none ∧ getResp = none))) := by
  constructor
  · intro s hq hh hg
    subst hq; subst hh; subst hg
    rfl
  · cases reqOK with
    | false => simp [checkSingleLink]
    | true =>
      cases headResp with
      | some s =>
        have hs := hHead s rfl
        have hne : s ≠ 0 := by omega
        simp [checkSingleLink, hne]
      | none =>
        cases getResp with
        | some s =>
          have hs := hGet s rfl
          have hne : s ≠ 0 := by omega
          simp [checkSingleLink, hne]
        | none =>
          simp [checkSingleLink]

/-! ## Counterexamples and witnesses -/

/-- A five-page site: `s` links to `a` and `c`; `a` to `b`; `b` to `c`;
`c` to `d`.  Realizable with plain same-host HTML pages. -/
def siteCE : String → Option (List String)
  | "http://h/s" => some ["http://h/a", "http://h/c"]
  | "http://h/a" => some ["http://h/b"]
  | "http://h/b" => some ["http://h/c"]
  | "http://h/c" => some ["http://h/d"]
  | _ => some []

/-- Claim C2 counterexample: crawl results are NOT monotone in the depth
bound — on `siteCE`,
`http://h/d` is found with `maxDepth = 2` but lost with `maxDepth = 3`,
because at depth 3 the page `c` is first reached at the depth bound (via
`s → a → b → c`), is marked visited without link extraction, and the
shallow path `s → c` then skips it as already visited. -/
theorem crawlWebsite_depth_monotone_cex :
    CrawlWebsite siteCE [] "http://h/s" 2 =
      .ok ["http://h/s", "http://h/a", "http://h/b", "http://h/c", "http://h/d"] ∧
    CrawlWebsite siteCE [] "http://h/s" 3 =
      .ok ["http://h/s", "http://h/a", "http://h/b", "http://h/c"] ∧
    "http://h/d" ∈ ["http://h/s", "http://h/a", "http://h/b", "http://h/c", "http://h/d"] ∧
    "http://h/d" ∉ ["http://h/s", "http://h/a", "http://h/b", "http://h/c"] :=
  ⟨rfl, rfl, by decide, by decide⟩

/-- Witness for the amended depth claim: on a concrete crawl the seed is
the first recorded URL. -/
theorem crawlWebsite_seed_first_witness :
    (["http://h/"] : List String).head? = some "http://h/" :=
  crawlWebsite_seed_first (fun _ => some []) [] "http://h/" 2 ["http://h/"] rfl

/-- An exclude-pattern set matching exactly the seed `http://h/s`. -/
def seedPatterns : List (String → Bool) := [fun x => x == "http://h/s"]

/-- Claim C3 counterexample: the seed URL is NOT subject to exclude
patterns — a seed matching a configured pattern is still recorded (the
check at checker.go:151 guards only discovered links, not the initial
`crawl(baseURL, 0)` call). -/
theorem crawlWebsite_excluded_seed_cex :
    shouldExclude seedPatterns "http://h/s" = true ∧
    CrawlWebsite (fun _ => some []) seedPatterns "http://h/s" 1 =
      .ok ["http://h/s"] :=
  ⟨rfl, rfl⟩

/-- Witness for the amended exclude claim: a non-seed URL surviving a
concrete crawl with a concrete pattern set indeed fails the pattern. -/
theorem crawl_respect_excludes_witness :
    "http://h/b" = "http://h/a" ∨
      shouldExclude [fun x => x == "http://h/c"] "http://h/b" = false :=
  (crawl_and_sitemap_respect_excludes [fun x => x == "http://h/c"]).2
    (fun _ => some ["http://h/b", "http://h/c"]) "http://h/a" 3
    ["http://h/a", "http://h/b"] rfl "http://h/b" (by decide)

/-- A two-page cycle: `a` links to `b` and `b` back to `a`. -/
def siteCyclic : String → Option (List String)
  | "http://h/a" => some ["http://h/b"]
  | "http://h/b" => some ["http://h/a"]
  | _ => some []

/-- Witness for the no-duplicates claim: crawling the cyclic site at depth
5 terminates with each page recorded exactly once. -/
theorem crawlWebsite_nodup_witness :
    (["http://h/a", "http://h/b"] : List String).Nodup :=
  crawlWebsite_nodup siteCyclic [] "http://h/a" 5 ["http://h/a", "http://h/b"] rfl

/-- Witness for the depth-0 claim: a parseable seed whose fetch would fail
(`extract` returns `none` everywhere) still yields exactly `[seed]`. -/
theorem crawlWebsite_depth_zero_witness :
    CrawlWebsite (fun _ => none) [] "http://h/" 0 = .ok ["http://h/"] :=
  crawlWebsite_depth_zero (fun _ => none) [] "http://h/" rfl

/-- Witness for the base-tag claim: on the two-base document the effective
base is the last base element `/y/` resolved at `http://h/a/b`, the result
ignores the probe oracle, and the anchors are resolved against it. -/
theorem extractLinksFromDoc_base_tag_witness :
    extractLinksFromDoc none twoBaseDoc ⟨"http", "h", "/a/b", "", ""⟩
        ⟨"http", "h", "/a/b", "", ""⟩ =
      extractNode
        (GoURL.resolveReference ⟨"http", "h", "/a/b", "", ""⟩ ⟨"", "", "/y/", "", ""⟩)
        ⟨"http", "h", "/a/b", "", ""⟩ [] twoBaseDoc ∧
    extractLinksFromDoc none twoBaseDoc ⟨"http", "h", "/a/b", "", ""⟩
        ⟨"http", "h", "/a/b", "", ""⟩ =
      extractLinksFromDoc (some (200, "text/html")) twoBaseDoc
        ⟨"http", "h", "/a/b", "", ""⟩ ⟨"http", "h", "/a/b", "", ""⟩ :=
  extractLinksFromDoc_base_tag none (some (200, "text/html")) twoBaseDoc
    ⟨"http", "h", "/a/b", "", ""⟩ ⟨"http", "h", "/a/b", "", ""⟩
    ⟨"", "", "/y/", "", ""⟩ (by decide)

/-- Witness for the extension short-circuit claim at
`http://h/docs/page.html`: probe responses (transport failure vs HTTP 500)
do not matter, and the result is the parent directory `/docs/`. -/
theorem getResolveBaseURL_extension_witness :
    getResolveBaseURL none ⟨"http", "h", "/docs/page.html", "", ""⟩ =
      getResolveBaseURL (some (500, "")) ⟨"http", "h", "/docs/page.html", "", ""⟩ ∧
    getResolveBaseURL none ⟨"http", "h", "/docs/page.html", "", ""⟩ =
      ⟨"http", "h", "/docs/", "", ""⟩ := by
  have h := getResolveBaseURL_extension_shortcircuit
    ⟨"http", "h", "/docs/page.html", "", ""⟩
    (by decide) (by decide) (by decide) none (some (500, ""))
  exact ⟨h.2, by rw [h.1]; decide⟩

/-- Witness for the probe-failure fallback claim at `http://h/api/items`
with a 404 probe response: directory treatment. -/
theorem getResolveBaseURL_probe_failure_witness :
    getResolveBaseURL (some (404, "text/html")) ⟨"http", "h", "/api/items", "", ""⟩ =
      ⟨"http", "h", "/api/items/", "", ""⟩ := by
  have h := getResolveBaseURL_probe_failure
    ⟨"http", "h", "/api/items", "", ""⟩ (some (404, "text/html"))
    (by decide) (by decide)
    (Or.inr ⟨404, "text/html", rfl, Or.inl (by decide)⟩)
  rw [h]
  decide

/-- Witness for the sitemap claim: an entry without a `<loc>` child
contributes the empty string to the result. -/
theorem getURLsFromSitemap_verbatim_witness :
    "" ∈ (sitemapLocs [⟨some "http://h/a"⟩, ⟨none⟩, ⟨some "http://h/a"⟩]).filter
      (fun x => !shouldExclude [] x) :=
  (getURLsFromSitemap_verbatim [] [⟨some "http://h/a"⟩, ⟨none⟩, ⟨some "http://h/a"⟩]).2.2.2
    ⟨none⟩ (by decide) rfl rfl

/-- Witness for the link-check claim: with a working request whose HEAD
and GET both fail in transport, the result is status 0 with an error. -/
theorem checkSingleLink_retry_witness :
    (checkSingleLink true none none "http://h/x").statusCode = 0 ∧
    (checkSingleLink true none none "http://h/x").error ≠ "" :=
  ((checkSingleLink_retry_and_zero true none none "http://h/x"
      (fun _ h => nomatch h) (fun _ h => nomatch h)).2).mpr
    (Or.inr ⟨rfl, rfl⟩)
